import Mathlib

/-!
Shallow embedding of the Safety_Formation_Control_CBF control-law stack:
the Topology graph model (`src/safety_formation/formation/topology.py`),
the centralized and distributed nominal formation controllers
(`src/safety_formation/control_law/nominal/*.py`) and the CBF safety
filter (`src/safety_formation/control_law/cbf/base_cbf.py`).

The source's real (float) scalars are modelled exactly, over an
arbitrary linearly ordered commutative ring `R` (so every statement
holds in particular over `ℝ` and `ℚ`); concrete witness inputs use
`R = ℤ`.  numpy 2-D arrays are lists of rows; Python exceptions are an
explicit `Except PyError` value.  Degenerate numpy behaviours the
repository never exercises (negative indices, broadcasting against a
length-one axis, ragged nested lists, which `np.array` itself rejects)
are outside the modelled input space; every theorem below stays inside
it via its hypotheses or concrete inputs.
-/

/-- Python exception classes raised by the embedded code paths. -/
inductive PyError where
  | valueError
  | indexError
  | attributeError
deriving DecidableEq

instance {ε α : Type} [DecidableEq ε] [DecidableEq α] : DecidableEq (Except ε α) := fun x y =>
  match x, y with
  | .ok a, .ok b =>
    if h : a = b then .isTrue (by rw [h]) else .isFalse (fun hh => by cases hh; exact h rfl)
  | .error a, .error b =>
    if h : a = b then .isTrue (by rw [h]) else .isFalse (fun hh => by cases hh; exact h rfl)
  | .ok _, .error _ => .isFalse (fun hh => by cases hh)
  | .error _, .ok _ => .isFalse (fun hh => by cases hh)

/-- A numpy 2-D array over the scalar type `R`: a list of rows. -/
abbrev Mat (R : Type) := List (List R)

variable {R : Type} [LinearOrderedCommRing R]

/-- `M` is a rectangular `r`-by-`c` array (numpy shape `(r, c)`). -/
def HasShape (M : Mat R) (r c : Nat) : Prop :=
  M.length = r ∧ ∀ row ∈ M, row.length = c

instance (M : Mat R) (r c : Nat) : Decidable (HasShape M r c) := by
  unfold HasShape; infer_instance

/-- Executable shape test used by the source's explicit shape checks
(`self.K.shape != (2, 4)` and the like). -/
def shapeCheck (M : Mat R) (r c : Nat) : Bool :=
  M.length == r && M.all (fun row => row.length == c)

/-- Executable test that two arrays have identical shapes, the condition
under which a numpy elementwise operation succeeds (degenerate
broadcasting against a length-one axis is outside the modelled scope). -/
def sameShape (A B : Mat R) : Bool :=
  A.length == B.length && (List.zip A B).all (fun p => p.1.length == p.2.length)

/-- `np.zeros((r, c))`. -/
def npZeros (r c : Nat) : Mat R :=
  List.replicate r (List.replicate c 0)

/-- `np.eye(n)`. -/
def npEye (n : Nat) : Mat R :=
  (List.range n).map (fun i => (List.range n).map (fun j => if i = j then 1 else 0))

/-- `np.diag(v)` for a 1-D argument: the square matrix with `v` on the
diagonal. -/
def npDiag (v : List R) : Mat R :=
  (List.range v.length).map
    (fun i => (List.range v.length).map (fun j => if i = j then v.getD j 0 else 0))

/-- `np.sum(M, axis=1)`: the list of row sums. -/
def npRowSums (M : Mat R) : List R :=
  M.map (fun row => row.sum)

/-- Elementwise sum, used where the operand shapes provably agree. -/
def ewAdd (A B : Mat R) : Mat R :=
  List.zipWith (List.zipWith (· + ·)) A B

/-- Elementwise difference, used where the operand shapes provably agree. -/
def ewSub (A B : Mat R) : Mat R :=
  List.zipWith (List.zipWith (· - ·)) A B

/-- Elementwise negation (`-M`). -/
def negMat (A : Mat R) : Mat R :=
  A.map (List.map (fun x => -x))

/-- Scalar times matrix (`c * M`). -/
def smulMat (c : R) (A : Mat R) : Mat R :=
  A.map (List.map (fun x => c * x))

/-- Shape-checked numpy addition: raises a broadcast `ValueError` on
mismatched shapes. -/
def npAddE (A B : Mat R) : Except PyError (Mat R) :=
  if sameShape A B then .ok (ewAdd A B) else .error .valueError

/-- Shape-checked numpy subtraction: raises a broadcast `ValueError` on
mismatched shapes. -/
def npSubE (A B : Mat R) : Except PyError (Mat R) :=
  if sameShape A B then .ok (ewSub A B) else .error .valueError

/-- Dot product of two equally long lists. -/
def dotL (x y : List R) : R :=
  (List.zipWith (· * ·) x y).sum

/-- Column `j` of `B` (elements defaulting to `0` past a row's end;
irrelevant for rectangular operands). -/
def getCol (B : Mat R) (j : Nat) : List R :=
  B.map (fun r => r.getD j 0)

/-- Matrix product `A @ B` for conformable rectangular operands. -/
def npMatMul (A B : Mat R) : Mat R :=
  A.map (fun row => (List.range (B.headD []).length).map (fun j => dotL row (getCol B j)))

/-- `np.kron(A, B)`. -/
def npKron (A B : Mat R) : Mat R :=
  A.flatMap (fun ar => B.map (fun br => ar.flatMap (fun a => br.map (fun b => a * b))))

/-- Row-major flattening of a 2-D array. -/
def matFlatten (M : Mat R) : List R :=
  M.flatten

/-- `M.reshape(r, c)`: raises `ValueError` when the element count is not
`r * c`. -/
def npReshape (M : Mat R) (r c : Nat) : Except PyError (Mat R) :=
  let flat := matFlatten M
  if flat.length = r * c then
    .ok ((List.range r).map (fun i => (List.range c).map (fun j => flat.getD (i * c + j) 0)))
  else
    .error .valueError

/-- `np.tile(M, (n, 1))` for a column vector `M`: the rows repeated `n`
times. -/
def npTile (M : Mat R) (n : Nat) : Mat R :=
  (List.replicate n M).flatten

/-- `np.vstack(ms)`: raises `ValueError` on an empty list of arrays. -/
def npVstack (ms : List (Mat R)) : Except PyError (Mat R) :=
  match ms with
  | [] => .error .valueError
  | _ => .ok ms.flatten

/-- A column vector built from a flat list (`v.reshape(-1, 1)`). -/
def colVec (v : List R) : Mat R :=
  v.map (fun x => [x])

/-- Python list indexing `l[i]` for a non-negative index: `IndexError`
out of range. -/
def listGet {α : Type} (l : List α) (i : Nat) : Except PyError α :=
  if h : i < l.length then .ok l[i] else .error .indexError

/-- numpy scalar indexing `M[i, j]` for non-negative indices:
`IndexError` out of range. -/
def matEntry (M : Mat R) (i j : Nat) : Except PyError R :=
  if h : i < M.length then
    if h2 : j < M[i].length then .ok M[i][j] else .error .indexError
  else .error .indexError

/-- Entry `(i, j)` of `M` with default `0`, for stating entrywise facts. -/
def entryD (M : Mat R) (i j : Nat) : R :=
  (M.getD i []).getD j 0

/-- Row `i` of `M` with default `[]`, for stating rowwise facts. -/
def rowD (M : Mat R) (i : Nat) : List R :=
  M.getD i []

/-- Whether an `Except` value is a normal (non-raising) return. -/
def isOkE {α : Type} (e : Except PyError α) : Bool :=
  match e with
  | .ok _ => true
  | .error _ => false

/-! ## Topology (`src/safety_formation/formation/topology.py`) -/

/-- The `Topology` object's data attributes after `__init__` (the
plotting helpers, which only draw, are not modelled). -/
structure Topology (R : Type) where
  n : Nat
  adj_matrix : Mat R
  D_lead : Mat R
  laplacian_matrix : Mat R
  augmented_laplacian : Mat R
deriving DecidableEq

/-- `Topology.__init__(num_agents, adjacency_matrix=None, leader_access=None)`:
stores the adjacency matrix (default all-zero `n`-by-`n`), the diagonal
leader-access matrix (default all-zero `n`-by-`n`), then eagerly computes
`L = D - A` and `H = L + D_lead`; numpy raises a broadcast `ValueError`
at those two elementwise operations when the operand shapes disagree.
No shape check of its own is performed. -/
def Topology.make (num_agents : Nat) (adjacency_matrix : Option (Mat R))
    (leader_access : Option (List R)) : Except PyError (Topology R) := do
  let adj := adjacency_matrix.getD (npZeros num_agents num_agents)
  let dLead := match leader_access with
    | some v => npDiag v
    | none => npZeros num_agents num_agents
  let lap ← npSubE (npDiag (npRowSums adj)) adj
  let aug ← npAddE lap dLead
  pure ⟨num_agents, adj, dLead, lap, aug⟩

/-- `Topology.get_augmented_laplacian`. -/
def Topology.get_augmented_laplacian (t : Topology R) : Mat R :=
  t.augmented_laplacian

/-- `Topology.get_neighbors(agent_id)`:
`np.where(self.adj_matrix[agent_id - 1] > 0)[0] + 1`. -/
def Topology.get_neighbors (t : Topology R) (agent_id : Nat) : Except PyError (List Nat) :=
  if h : agent_id - 1 < t.adj_matrix.length then
    let row := t.adj_matrix[agent_id - 1]
    .ok ((List.range row.length).filterMap
      (fun j => if 0 < row.getD j 0 then some (j + 1) else none))
  else .error .indexError

/-- `Topology.sees_leader(agent_id)`:
`self.D_lead[agent_id - 1, agent_id - 1] > 0`. -/
def Topology.sees_leader (t : Topology R) (agent_id : Nat) : Except PyError Bool := do
  let x ← matEntry t.D_lead (agent_id - 1) (agent_id - 1)
  pure (decide (0 < x))

/-! ## Agent (`src/safety_formation/formation/agent.py`): only the data
the controllers read (`state`, `f`, `id`); the integrator and history
are external collaborators. -/

/-- The per-follower data the control laws consume. -/
structure Agent (R : Type) where
  id : Nat
  state : Mat R
  f : Mat R
deriving DecidableEq

/-- The `Agent.__init__` invariant: `state` and `f` are reshaped to
`(4, 1)` columns. -/
def Agent.WF (a : Agent R) : Prop :=
  HasShape a.state 4 1 ∧ HasShape a.f 4 1

instance (a : Agent R) : Decidable a.WF := by
  unfold Agent.WF; infer_instance

/-- A placeholder agent for total default-valued list access. -/
def dummyAgent : Agent R :=
  ⟨0, [], []⟩

/-! ## Centralized nominal controller
(`src/safety_formation/control_law/nominal/centralized_formation.py`) -/

/-- The `CentralizedFormationControl` object's gain attributes. -/
structure CentralizedFormationControl (R : Type) where
  K : Mat R
  K_prime : Mat R
deriving DecidableEq

/-- `CentralizedFormationControl.__init__(K_matrix, K_prime_matrix=0)`.
The `none` argument stands for the Python default `K_prime_matrix = 0`:
`np.array(0)` is a 0-d array of shape `()`, which can never equal
`(2, 4)`, so the constructor's own shape check raises `ValueError` on
the default. -/
def CentralizedFormationControl.make (K_matrix : Mat R) (K_prime_matrix : Option (Mat R)) :
    Except PyError (CentralizedFormationControl R) := do
  if !(shapeCheck K_matrix 2 4) then throw .valueError
  match K_prime_matrix with
  | none => throw .valueError
  | some kp =>
    if !(shapeCheck kp 2 4) then throw .valueError
    pure ⟨K_matrix, kp⟩

/-- `CentralizedFormationControl.compute_nominal(all_agents, topology,
leader_state=None)`: stacks states and offsets, builds the global error
`E = X_all - F_all - X_L_all` and returns
`(-(H ⊗ K) @ E + (I ⊗ K_prime) @ F_all).reshape(n, 2)`. -/
def CentralizedFormationControl.compute_nominal (c : CentralizedFormationControl R)
    (all_agents : List (Agent R)) (topology : Topology R) (leader_state : Option (Mat R)) :
    Except PyError (Mat R) := do
  let n := all_agents.length
  let H := topology.get_augmented_laplacian
  if !(shapeCheck H n n) then throw .valueError
  let X_all ← npVstack (all_agents.map Agent.state)
  let F_all ← npVstack (all_agents.map Agent.f)
  if !(shapeCheck X_all (4 * n) 1) then throw .valueError
  if !(shapeCheck F_all (4 * n) 1) then throw .valueError
  let leader ← match leader_state with
    | none => pure (npZeros 4 1)
    | some ls => npReshape ls 4 1
  let X_L_all := npTile leader n
  let error_all := ewSub (ewSub X_all F_all) X_L_all
  let H_kron_K := npKron H c.K
  let I_kron_K_prime := npKron (npEye n) c.K_prime
  let U_all := ewAdd (negMat (npMatMul H_kron_K error_all)) (npMatMul I_kron_K_prime F_all)
  npReshape U_all n 2

/-! ## Distributed nominal controller
(`src/safety_formation/control_law/nominal/distributed_formation.py`) -/

/-- `DistributedFormationControl.compute_nominal(agent_id, all_agents,
topology, leader_state=None)`, translated statement by statement in the
source's evaluation order.  Note the source indexes `all_agents` and
`adj_matrix` with the raw `agent_id`/neighbor id (no 1-based to 0-based
conversion), and after the neighbor loop reads `topology.b_diag`, an
attribute the `Topology` class never defines, so that step raises
`AttributeError` whenever reached. -/
def DistributedFormationControl.compute_nominal (K : Mat R) (agent_id : Nat)
    (all_agents : List (Agent R)) (topology : Topology R) (leader_state : Option (Mat R)) :
    Except PyError (Mat R) := do
  let leader ← match leader_state with
    | none => pure (npZeros 4 1)
    | some ls => npReshape ls 4 1
  let current_agent ← listGet all_agents agent_id
  let _error_i := ewSub (ewSub current_agent.state current_agent.f) leader
  let neighbors ← topology.get_neighbors agent_id
  let _neighbor_sum ← neighbors.foldlM
    (fun acc j => do
      let neighbor_agent ← listGet all_agents j
      let diff_i := ewSub current_agent.state current_agent.f
      let diff_j := ewSub neighbor_agent.state neighbor_agent.f
      let a_ij ← matEntry topology.adj_matrix agent_id j
      pure (ewAdd acc (smulMat a_ij (ewSub diff_i diff_j))))
    (npZeros 4 1)
  throw .attributeError

/-! ## CBF safety filter (`src/safety_formation/control_law/cbf/base_cbf.py`).
The abstract `generate_constraints` hook (overridden by subclasses) and
the external `qpsolvers.solve_qp` boundary are parameters: a constraint
generator returns `(G, h)` or `None`, a solver returns an optimal point
or `None` for an infeasible program.  The second component of the result
counts the infeasibility warnings the call prints. -/

/-- `BaseCBF.solve_cbf_qp(u_nom, agent_id, all_agents)`. -/
def BaseCBF.solve_cbf_qp
    (solver : Mat R → List R → Mat R → List R → Option (List R))
    (generate_constraints : Nat → List (Agent R) → Option (Mat R × List R))
    (u_nom : Mat R) (agent_id : Nat) (all_agents : List (Agent R)) : Mat R × Nat :=
  let P := npEye 2
  let q := (matFlatten u_nom).map (fun x => -x)
  match generate_constraints agent_id all_agents with
  | none => (u_nom, 0)
  | some (G, h_vec) =>
    match solver P q G h_vec with
    | none => (u_nom, 1)
    | some u_opt => (colVec u_opt, 0)

/-- `BaseCBF.compute_safe_control(agent_id, all_agents, topology)`: calls
the wrapped nominal controller with three positional arguments — no
`leader_state` is forwarded, so the controller's `None` default applies —
then filters the result through `solve_cbf_qp`. -/
def BaseCBF.compute_safe_control
    (solver : Mat R → List R → Mat R → List R → Option (List R))
    (generate_constraints : Nat → List (Agent R) → Option (Mat R × List R))
    (nominal : Nat → List (Agent R) → Topology R → Option (Mat R) → Except PyError (Mat R))
    (agent_id : Nat) (all_agents : List (Agent R)) (topology : Topology R) :
    Except PyError (Mat R × Nat) := do
  let u_nom ← nominal agent_id all_agents topology none
  pure (BaseCBF.solve_cbf_qp solver generate_constraints u_nom agent_id all_agents)

/-! ## Spec-side statement of the centralized law, per follower.
Written from the spec's words (§4.3): row `i` of the result is
`-K · Σ_j H[i,j]·e_j + K_prime · f_i` with `e_j = x_j - f_j - x_L`, the
blockwise reading of `U_all = -(H ⊗ K)·E + (I_N ⊗ K_prime)·F_all`. -/

/-- The leader state as a flat 4-vector, the spec's
"defaulting to the zero 4-vector when omitted". -/
def specLeader (leader_state : Option (Mat R)) : List R :=
  match leader_state with
  | none => List.replicate 4 0
  | some ls => matFlatten ls

/-- The spec's per-follower tracking error `x_j - f_j - x_L`, flat. -/
def specErr (a : Agent R) (xL : List R) : List R :=
  List.zipWith (· - ·) (List.zipWith (· - ·) (matFlatten a.state) (matFlatten a.f)) xL

/-- The spec's centralized command matrix, one row of two entries per
follower: entry `(i, k)` is
`-Σ_j H[i,j] · (K[k] ⬝ e_j) + K_prime[k] ⬝ f_i`. -/
def specCentralizedCmd (K K_prime H : Mat R) (agents : List (Agent R)) (xL : List R) : Mat R :=
  (List.range agents.length).map (fun i =>
    (List.range 2).map (fun k =>
      -(((List.range agents.length).map
          (fun j => entryD H i j * dotL (rowD K k) (specErr (agents.getD j dummyAgent) xL))).sum)
      + dotL (rowD K_prime k) (matFlatten (agents.getD i dummyAgent).f)))

/-! ## Concrete inputs over `ℤ`: the 6-node cycle fixture of
`src/tests/test_topology.py` and small inputs for witnesses and
counterexamples. -/

/-- The 6-node cycle adjacency matrix of the test fixture. -/
def fixtureA : Mat ℤ :=
  [[0, 1, 0, 0, 0, 1],
   [1, 0, 1, 0, 0, 0],
   [0, 1, 0, 1, 0, 0],
   [0, 0, 1, 0, 1, 0],
   [0, 0, 0, 1, 0, 1],
   [1, 0, 0, 0, 1, 0]]

/-- The fixture's leader-access vector. -/
def fixtureLa : List ℤ :=
  [1, 0, 1, 0, 0, 0]

/-- The fixture topology, as `Topology(6, fixtureA, fixtureLa)` builds it. -/
def fixtureTopo : Topology ℤ :=
  match Topology.make 6 (some fixtureA) (some fixtureLa) with
  | .ok t => t
  | .error _ => ⟨0, [], [], [], []⟩

/-- A concrete gain matrix of shape `(2, 4)`. -/
def fixtureK : Mat ℤ :=
  [[1, 0, 2, 0],
   [0, 1, 0, 2]]

/-- Three concrete well-formed followers on a path graph, enough for the
distributed controller's neighbor loop to finish (so that the
`b_diag` attribute read is reached). -/
def pathAgents : List (Agent ℤ) :=
  [⟨1, [[0], [0], [0], [0]], [[1], [0], [0], [0]]⟩,
   ⟨2, [[1], [0], [0], [0]], [[0], [1], [0], [0]]⟩,
   ⟨3, [[0], [1], [0], [0]], [[-1], [0], [0], [0]]⟩]

/-- A 3-by-3 path adjacency matrix; also the counterexample adjacency
deliberately not matching `num_agents = 2`. -/
def pathAdj3 : Mat ℤ :=
  [[0, 1, 0],
   [1, 0, 1],
   [0, 1, 0]]

/-- A length-3 leader-access vector, deliberately not of length 2 in the
counterexample use. -/
def pathLa3 : List ℤ :=
  [1, 0, 1]

/-- The 3-follower path topology. -/
def pathTopo : Topology ℤ :=
  match Topology.make 3 (some pathAdj3) (some pathLa3) with
  | .ok t => t
  | .error _ => ⟨0, [], [], [], []⟩

/-- Two concrete well-formed followers for small witnesses. -/
def witAgents : List (Agent ℤ) :=
  [⟨1, [[1], [2], [0], [0]], [[1], [0], [0], [0]]⟩,
   ⟨2, [[0], [1], [1], [0]], [[0], [1], [0], [0]]⟩]

/-- A concrete 2-follower topology (path graph, leader seen by agent 1). -/
def witTopo : Topology ℤ :=
  match Topology.make 2 (some [[0, 1], [1, 0]]) (some [1, 0]) with
  | .ok t => t
  | .error _ => ⟨0, [], [], [], []⟩

/-- A concrete centralized controller with both gains set. -/
def witCtrl : CentralizedFormationControl ℤ :=
  ⟨[[1, 0, 2, 0], [0, 1, 0, 2]], [[1, 1, 0, 0], [0, 1, 1, 0]]⟩

/-! ## General lemmas about the embedding primitives -/

theorem hasShape_index (M : Mat R) (r c : Nat) :
    HasShape M r c ↔ M.length = r ∧ ∀ (i : Nat) (h : i < M.length), M[i].length = c := by
  unfold HasShape
  constructor
  · rintro ⟨hl, hr⟩
    exact ⟨hl, fun i h => hr _ (M.getElem_mem h)⟩
  · rintro ⟨hl, hr⟩
    refine ⟨hl, fun row hrow => ?_⟩
    obtain ⟨i, h, rfl⟩ := List.mem_iff_getElem.mp hrow
    exact hr i h

theorem shapeCheck_iff (M : Mat R) (r c : Nat) :
    shapeCheck M r c = true ↔ HasShape M r c := by
  unfold shapeCheck HasShape
  simp [List.all_eq_true]

theorem sameShape_of_shapes {A B : Mat R} {r c : Nat}
    (hA : HasShape A r c) (hB : HasShape B r c) : sameShape A B = true := by
  obtain ⟨hAl, hAr⟩ := hA
  obtain ⟨hBl, hBr⟩ := hB
  unfold sameShape
  simp only [Bool.and_eq_true, beq_iff_eq, List.all_eq_true, hAl, hBl]
  refine ⟨trivial, fun p hp => ?_⟩
  have := List.of_mem_zip hp
  simp [hAr _ this.1, hBr _ this.2]

theorem hasShape_npZeros (r c : Nat) : HasShape (npZeros r c : Mat R) r c := by
  constructor
  · simp [npZeros]
  · intro row hrow
    rw [List.eq_of_mem_replicate hrow]
    simp

theorem hasShape_npDiag (v : List R) : HasShape (npDiag v) v.length v.length := by
  constructor
  · simp [npDiag]
  · intro row hrow
    simp only [npDiag, List.mem_map] at hrow
    obtain ⟨i, _, rfl⟩ := hrow
    simp

theorem hasShape_npEye (n : Nat) : HasShape (npEye n : Mat R) n n := by
  constructor
  · simp [npEye]
  · intro row hrow
    simp only [npEye, List.mem_map] at hrow
    obtain ⟨i, _, rfl⟩ := hrow
    simp

theorem length_npRowSums (M : Mat R) : (npRowSums M).length = M.length := by
  simp [npRowSums]

theorem hasShape_ewOp {A B : Mat R} {r c : Nat} (f : R → R → R)
    (hA : HasShape A r c) (hB : HasShape B r c) :
    HasShape (List.zipWith (List.zipWith f) A B) r c := by
  rw [hasShape_index] at hA hB ⊢
  obtain ⟨hAl, hAr⟩ := hA
  obtain ⟨hBl, hBr⟩ := hB
  constructor
  · simp [hAl, hBl]
  · intro i h
    rw [List.getElem_zipWith]
    simp only [List.length_zipWith]
    rw [hAr, hBr] <;> simp_all [List.length_zipWith]

theorem hasShape_ewAdd {A B : Mat R} {r c : Nat}
    (hA : HasShape A r c) (hB : HasShape B r c) : HasShape (ewAdd A B) r c :=
  hasShape_ewOp _ hA hB

theorem hasShape_ewSub {A B : Mat R} {r c : Nat}
    (hA : HasShape A r c) (hB : HasShape B r c) : HasShape (ewSub A B) r c :=
  hasShape_ewOp _ hA hB

theorem sum_zipWith_sub {xs ys : List R} (h : xs.length = ys.length) :
    (List.zipWith (· - ·) xs ys).sum = xs.sum - ys.sum := by
  induction xs generalizing ys with
  | nil => cases ys <;> simp at h ⊢
  | cons x xs ih =>
    cases ys with
    | nil => simp at h
    | cons y ys =>
      simp only [List.zipWith_cons_cons, List.sum_cons, ih (by simpa using h)]
      ring

theorem sum_map_zero_of {α : Type} (l : List α) (g : α → R) (h : ∀ a ∈ l, g a = 0) :
    (l.map g).sum = 0 := by
  induction l with
  | nil => simp
  | cons a l ih =>
    simp only [List.map_cons, List.sum_cons, h a (by simp), ih (fun b hb => h b (by simp [hb]))]
    simp

theorem sum_range_delta (n i : Nat) (hi : i < n) (f : Nat → R) :
    ((List.range n).map (fun j => if i = j then f j else 0)).sum = f i := by
  induction n with
  | zero => omega
  | succ n ih =>
    rw [List.range_succ, List.map_append, List.sum_append]
    rcases Nat.lt_or_ge i n with h | h
    · rw [ih h]
      simp [Nat.ne_of_lt h]
    · have : i = n := by omega
      subst this
      rw [sum_map_zero_of]
      · simp
      · intro j hj
        simp only [List.mem_range] at hj
        simp [Nat.ne_of_gt hj]

theorem dotL_append {xs ys us vs : List R} (h : xs.length = us.length) :
    dotL (xs ++ ys) (us ++ vs) = dotL xs us + dotL ys vs := by
  unfold dotL
  rw [List.zipWith_append _ _ _ _ _ h, List.sum_append]

theorem dotL_smul_left (a : R) (kr v : List R) :
    dotL (kr.map (fun b => a * b)) v = a * dotL kr v := by
  unfold dotL
  induction kr generalizing v with
  | nil => simp
  | cons k kr ih =>
    cases v with
    | nil => simp
    | cons x v =>
      simp only [List.map_cons, List.zipWith_cons_cons, List.sum_cons, ih]
      ring

theorem dotL_flatMap_flatten (ar : List R) (kr : List R) (vs : List (List R))
    (hlen : ∀ v ∈ vs, v.length = kr.length) :
    dotL (ar.flatMap (fun a => kr.map (fun b => a * b))) vs.flatten
      = (List.zipWith (fun a v => a * dotL kr v) ar vs).sum := by
  induction ar generalizing vs with
  | nil => simp [dotL]
  | cons a ar ih =>
    cases vs with
    | nil => simp [dotL]
    | cons v vs =>
      simp only [List.flatMap_cons, List.flatten_cons, List.zipWith_cons_cons, List.sum_cons]
      rw [dotL_append (by simp [hlen v (by simp)]), dotL_smul_left,
        ih vs (fun u hu => hlen u (by simp [hu]))]

theorem zipWith_flatten_flatten (f : R → R → R) (xs ys : List (List R))
    (hl : xs.length = ys.length)
    (hb : ∀ (i : Nat) (hx : i < xs.length) (hy : i < ys.length), xs[i].length = ys[i].length) :
    List.zipWith f xs.flatten ys.flatten = (List.zipWith (List.zipWith f) xs ys).flatten := by
  induction xs generalizing ys with
  | nil => cases ys <;> simp at hl ⊢
  | cons x xs ih =>
    cases ys with
    | nil => simp at hl
    | cons y ys =>
      simp only [List.flatten_cons, List.zipWith_cons_cons]
      rw [List.zipWith_append]
      · rw [ih ys (by simpa using hl)]
        intro i hx hy
        have := hb (i + 1) (by simpa using Nat.succ_lt_succ hx) (by simpa using Nat.succ_lt_succ hy)
        simpa using this
      · have := hb 0 (by simp) (by simp)
        simpa using this

theorem flatten_map_singleton {α β : Type} (l : List α) (g : α → β) :
    (l.map (fun x => [g x])).flatten = l.map g := by
  induction l with
  | nil => simp
  | cons a l ih => simp [ih]

theorem length_flatMap_uniform {α β : Type} (l : List α) (f : α → List β) (r : Nat)
    (hr : ∀ a, (f a).length = r) : (l.flatMap f).length = l.length * r := by
  induction l with
  | nil => simp
  | cons a l ih => simp [hr, ih]; ring

theorem flatMap_getElem_uniform {α β : Type} (l : List α) (f : α → List β) (r : Nat)
    (hr : ∀ a, (f a).length = r) (i k : Nat) (hi : i < l.length) (hk : k < r)
    (hm : i * r + k < (l.flatMap f).length) (hk2 : k < (f l[i]).length) :
    (l.flatMap f)[i * r + k] = (f l[i])[k] := by
  induction l generalizing i with
  | nil => simp at hi
  | cons a l ih =>
    cases i with
    | zero =>
      simp only [List.flatMap_cons]
      rw [List.getElem_append_left (by rw [hr]; simpa using hk)]
      simp
    | succ i =>
      simp only [List.flatMap_cons] at hm ⊢
      have hlen : (f a).length = r := hr a
      have hge : (f a).length ≤ (i + 1) * r + k := by rw [hlen]; nlinarith
      rw [List.getElem_append_right hge]
      have he : (i + 1) * r + k - (f a).length = i * r + k := by
        rw [hlen]
        have : (i + 1) * r = i * r + r := by ring
        omega
      have hm2 : i * r + k < (l.flatMap f).length := by
        simp only [List.length_append] at hm
        have : (i + 1) * r = i * r + r := by ring
        omega
      have hil : i < l.length := by simpa using hi
      have hk2a : k < (f l[i]).length := by
        have h21 : (a :: l)[i + 1] = l[i] := by simp
        rwa [h21] at hk2
      simp only [he]
      rw [ih i hil hm2 hk2a]
      simp

theorem zipWith_eq_range_map {α β γ : Type} (g : α → β → γ) (as : List α) (bs : List β)
    (n : Nat) (ha : as.length = n) (hb : bs.length = n) (da : α) (db : β) :
    List.zipWith g as bs = (List.range n).map (fun j => g (as.getD j da) (bs.getD j db)) := by
  induction as generalizing bs n with
  | nil => cases bs <;> simp_all [List.range_zero]
  | cons a as ih =>
    cases bs with
    | nil => simp_all
    | cons b bs =>
      cases n with
      | zero => simp at ha
      | succ n =>
        simp only [List.zipWith_cons_cons]
        rw [List.range_succ_eq_map]
        simp only [List.map_cons, List.getD_cons_zero, List.map_map]
        congr 1
        rw [ih bs n (by simpa using ha) (by simpa using hb)]
        simp [Function.comp]

theorem range_map_getD (l : List R) (d : R) :
    (List.range l.length).map (fun i => l.getD i d) = l := by
  apply List.ext_getElem
  · simp
  · intro i h1 h2
    simp only [List.getElem_map, List.getElem_range]
    exact l.getD_eq_getElem d h2

theorem flatten_flatten {α : Type} (xss : List (List (List α))) :
    xss.flatten.flatten = (xss.map List.flatten).flatten := by
  induction xss with
  | nil => simp
  | cons xs xss ih => simp [ih]

theorem getCol_zero_of_col (B : Mat R) (hB : ∀ row ∈ B, row.length = 1) :
    B.map (fun r => r.getD 0 0) = B.flatten := by
  induction B with
  | nil => simp
  | cons row B ih =>
    obtain ⟨x, rfl⟩ := List.length_eq_one.mp (hB row (by simp))
    simp only [List.map_cons, List.flatten_cons]
    rw [ih (fun r hr => hB r (by simp [hr]))]
    simp

theorem zipWith_map_replicate {α β γ : Type} (g : β → α → γ) (l : List β) (c : α) (n : Nat)
    (h : l.length = n) :
    List.zipWith g l (List.replicate n c) = l.map (fun x => g x c) := by
  induction l generalizing n with
  | nil => simp
  | cons x l ih =>
    cases n with
    | zero => simp at h
    | succ n => simp [List.replicate_succ, ih n (by simpa using h)]

theorem zipWith_map_map {α β γ δ : Type} (g : β → γ → δ) (u : α → β) (v : α → γ) (l : List α) :
    List.zipWith g (l.map u) (l.map v) = l.map (fun x => g (u x) (v x)) := by
  induction l with
  | nil => simp
  | cons x l ih => simp [ih]

theorem make_ok_of_shapes {n m : Nat} {A : Mat R} {la : List R}
    (hA : HasShape A m m) (hla : la.length = m) :
    Topology.make n (some A) (some la)
      = .ok ⟨n, A, npDiag la, ewSub (npDiag (npRowSums A)) A,
          ewAdd (ewSub (npDiag (npRowSums A)) A) (npDiag la)⟩ := by
  have hd : HasShape (npDiag (npRowSums A)) m m := by
    have := hasShape_npDiag (npRowSums A)
    rwa [length_npRowSums, hA.1] at this
  have hlap : HasShape (ewSub (npDiag (npRowSums A)) A) m m := hasShape_ewSub hd hA
  have hdl : HasShape (npDiag la) m m := by
    have := hasShape_npDiag la
    rwa [hla] at this
  have e1 : npSubE (npDiag (npRowSums A)) A = .ok (ewSub (npDiag (npRowSums A)) A) := by
    unfold npSubE
    rw [sameShape_of_shapes hd hA]
    rfl
  have e2 : npAddE (ewSub (npDiag (npRowSums A)) A) (npDiag la)
      = .ok (ewAdd (ewSub (npDiag (npRowSums A)) A) (npDiag la)) := by
    unfold npAddE
    rw [sameShape_of_shapes hlap hdl]
    rfl
  unfold Topology.make
  simp only [Option.getD_some]
  rw [e1]
  show npAddE (ewSub (npDiag (npRowSums A)) A) (npDiag la) >>= _ = _
  rw [e2]
  rfl

theorem getElem_npDiag (v : List R) (i : Nat) (hi : i < v.length)
    (hb : i < (npDiag v).length) :
    (npDiag v)[i] = (List.range v.length).map (fun j => if i = j then v.getD j 0 else 0) := by
  simp [npDiag]

theorem entryD_npDiag (v : List R) (i j : Nat) (hi : i < v.length) (hj : j < v.length) :
    entryD (npDiag v) i j = if i = j then v.getD j 0 else 0 := by
  have hb : i < (npDiag v).length := by simp [npDiag, hi]
  unfold entryD
  rw [List.getD_eq_getElem _ _ hb, getElem_npDiag v i hi hb]
  have hj2 : j < ((List.range v.length).map
      (fun j => if i = j then v.getD j 0 else 0)).length := by simpa using hj
  rw [List.getD_eq_getElem _ _ hj2]
  simp

theorem entryD_ewOp (f : R → R → R) {A B : Mat R} {r c : Nat}
    (hA : HasShape A r c) (hB : HasShape B r c) (i j : Nat) (hi : i < r) (hj : j < c) :
    entryD (List.zipWith (List.zipWith f) A B) i j = f (entryD A i j) (entryD B i j) := by
  rw [hasShape_index] at hA hB
  obtain ⟨hAl, hAr⟩ := hA
  obtain ⟨hBl, hBr⟩ := hB
  have hiA : i < A.length := by omega
  have hiB : i < B.length := by omega
  have hz : i < (List.zipWith (List.zipWith f) A B).length := by
    simp [List.length_zipWith]; omega
  unfold entryD
  rw [List.getD_eq_getElem _ _ hz, List.getElem_zipWith,
    List.getD_eq_getElem _ _ hiA, List.getD_eq_getElem _ _ hiB]
  have hjA : j < A[i].length := by rw [hAr i hiA]; exact hj
  have hjB : j < B[i].length := by rw [hBr i hiB]; exact hj
  have hjz : j < (List.zipWith f A[i] B[i]).length := by
    simp [List.length_zipWith]; omega
  rw [List.getD_eq_getElem _ _ hjz, List.getElem_zipWith,
    List.getD_eq_getElem _ _ hjA, List.getD_eq_getElem _ _ hjB]

theorem matEntry_ok (M : Mat R) (i j : Nat) (hi : i < M.length) (hj : j < M[i].length) :
    matEntry M i j = .ok M[i][j] := by
  unfold matEntry
  rw [dif_pos hi, dif_pos hj]

theorem rowD_eq_getElem {M : Mat R} {i : Nat} (h : i < M.length) : rowD M i = M[i] := by
  unfold rowD
  exact List.getD_eq_getElem _ _ h

theorem entryD_ewAdd {A B : Mat R} {r c : Nat} (hA : HasShape A r c) (hB : HasShape B r c)
    (i j : Nat) (hi : i < r) (hj : j < c) :
    entryD (ewAdd A B) i j = entryD A i j + entryD B i j :=
  entryD_ewOp _ hA hB i j hi hj

theorem entryD_ewSub {A B : Mat R} {r c : Nat} (hA : HasShape A r c) (hB : HasShape B r c)
    (i j : Nat) (hi : i < r) (hj : j < c) :
    entryD (ewSub A B) i j = entryD A i j - entryD B i j :=
  entryD_ewOp _ hA hB i j hi hj

theorem npVstack_ok {ms : List (Mat R)} (h : ms ≠ []) : npVstack ms = .ok ms.flatten := by
  cases ms with
  | nil => exact absurd rfl h
  | cons m ms => rfl

theorem matFlatten_length_of_col {M : Mat R} {m : Nat} (h : HasShape M m 1) :
    (matFlatten M).length = m := by
  unfold matFlatten
  rw [List.length_flatten]
  have : M.map List.length = List.replicate m 1 := by
    rw [List.eq_replicate_iff]
    refine ⟨by simp [h.1], fun x hx => ?_⟩
    simp only [List.mem_map] at hx
    obtain ⟨row, hrow, rfl⟩ := hx
    exact h.2 row hrow
  rw [this]
  simp

theorem hasShape_flatten_cols {ms : List (Mat R)} {k : Nat}
    (h : ∀ m ∈ ms, HasShape m k 1) : HasShape ms.flatten (ms.length * k) 1 := by
  induction ms with
  | nil => exact ⟨by simp, by simp⟩
  | cons m ms ih =>
    have hm := h m (by simp)
    have hrest := ih (fun x hx => h x (by simp [hx]))
    constructor
    · simp only [List.flatten_cons, List.length_append, hrest.1, matFlatten_length_of_col hm]
      rw [hm.1]
      rw [List.length_cons]
      ring
    · intro row hrow
      simp only [List.flatten_cons, List.mem_append] at hrow
      rcases hrow with hrow | hrow
      · exact hm.2 row hrow
      · exact hrest.2 row hrow
  
theorem hasShape_colVec (v : List R) : HasShape (colVec v) v.length 1 := by
  constructor
  · simp [colVec]
  · intro row hrow
    simp only [colVec, List.mem_map] at hrow
    obtain ⟨x, _, rfl⟩ := hrow
    rfl

theorem matFlatten_colVec (v : List R) : matFlatten (colVec v) = v := by
  unfold matFlatten colVec
  have := flatten_map_singleton v (fun x => x)
  simpa using this

theorem headD_length_of_col {M : Mat R} {m : Nat} (h : HasShape M m 1) (hm : 0 < m) :
    (M.headD []).length = 1 := by
  cases M with
  | nil => exact absurd h.1 (by simp; omega)
  | cons row M => exact h.2 row (by simp)

theorem npReshape_col {M : Mat R} {m : Nat} (h : (matFlatten M).length = m) :
    npReshape M m 1 = .ok (colVec (matFlatten M)) := by
  unfold npReshape
  simp only [h, Nat.mul_one, if_true, eq_self_iff_true]
  congr 1
  conv_rhs => rw [← range_map_getD (matFlatten M) 0]
  rw [h]
  unfold colVec
  rw [List.map_map]
  apply List.map_congr_left
  intro i _
  rw [show List.range 1 = [0] from rfl]
  simp

theorem matFlatten_ewOp_cols (f : R → R → R) {A B : Mat R} {m : Nat}
    (hA : HasShape A m 1) (hB : HasShape B m 1) :
    matFlatten (List.zipWith (List.zipWith f) A B)
      = List.zipWith f (matFlatten A) (matFlatten B) := by
  unfold matFlatten
  rw [zipWith_flatten_flatten f A B (by rw [hA.1, hB.1])]
  intro i hx hy
  rw [((hasShape_index A m 1).mp hA).2 i hx, ((hasShape_index B m 1).mp hB).2 i hy]

theorem hasShape_npKron {A B : Mat R} {p q r s : Nat}
    (hA : HasShape A p q) (hB : HasShape B r s) :
    HasShape (npKron A B) (p * r) (q * s) := by
  obtain ⟨hAl, hAr⟩ := hA
  obtain ⟨hBl, hBr⟩ := hB
  constructor
  · unfold npKron
    rw [length_flatMap_uniform _ _ r (fun a => by simp [hBl]), hAl]
  · intro row hrow
    unfold npKron at hrow
    rw [List.mem_flatMap] at hrow
    obtain ⟨ar, har, hrow⟩ := hrow
    rw [List.mem_map] at hrow
    obtain ⟨br, hbr, rfl⟩ := hrow
    rw [length_flatMap_uniform _ _ s (fun a => by simp [hBr br hbr]), hAr _ har]

theorem matMul_col {A B : Mat R} {m : Nat} (hB : HasShape B m 1) (hm : 0 < m) :
    npMatMul A B = A.map (fun row => [dotL row (matFlatten B)]) := by
  unfold npMatMul
  rw [headD_length_of_col hB hm]
  apply List.map_congr_left
  intro row _
  rw [show List.range 1 = [0] from rfl]
  simp only [List.map_cons, List.map_nil]
  congr 1
  unfold getCol
  rw [getCol_zero_of_col B hB.2]
  rfl

theorem specErr_length {a : Agent R} {xL : List R} (ha : a.WF) (hxL : xL.length = 4) :
    (specErr a xL).length = 4 := by
  unfold specErr
  simp [List.length_zipWith, matFlatten_length_of_col ha.1, matFlatten_length_of_col ha.2, hxL]

theorem matFlatten_flatten (ms : List (Mat R)) :
    matFlatten ms.flatten = (ms.map matFlatten).flatten :=
  flatten_flatten ms
theorem matFlatten_ewSub_cols {A B : Mat R} {m : Nat}
    (hA : HasShape A m 1) (hB : HasShape B m 1) :
    matFlatten (ewSub A B) = List.zipWith (· - ·) (matFlatten A) (matFlatten B) :=
  matFlatten_ewOp_cols _ hA hB
theorem matFlatten_ewAdd_cols {A B : Mat R} {m : Nat}
    (hA : HasShape A m 1) (hB : HasShape B m 1) :
    matFlatten (ewAdd A B) = List.zipWith (· + ·) (matFlatten A) (matFlatten B) :=
  matFlatten_ewOp_cols _ hA hB
theorem npReshape_ok {M : Mat R} {r c : Nat} (h : (matFlatten M).length = r * c) :
    npReshape M r c = .ok ((List.range r).map
      (fun i => (List.range c).map (fun j => (matFlatten M).getD (i * c + j) 0))) := by
  unfold npReshape
  rw [if_pos h]

theorem exceptBind_ok {α β : Type} (a : α) (f : α → Except PyError β) :
    (Except.ok a >>= f) = f a := rfl

theorem exceptPure_bind {α β : Type} (a : α) (f : α → Except PyError β) :
    ((pure a : Except PyError α) >>= f) = f a := rfl

/-- The analytical core of the centralized law: on well-shaped inputs
the Kronecker-product pipeline, reshaped to `n` rows of two entries,
computes exactly the spec's per-follower block formula. -/
theorem centralized_core (K Kp H : Mat R) (agents : List (Agent R)) (L : Mat R)
    (hn : 0 < agents.length)
    (hK : HasShape K 2 4) (hKp : HasShape Kp 2 4)
    (hH : HasShape H agents.length agents.length)
    (hAg : ∀ a ∈ agents, a.WF)
    (hL : HasShape L 4 1) :
    npReshape (ewAdd
        (negMat (npMatMul (npKron H K)
          (ewSub (ewSub (agents.map Agent.state).flatten (agents.map Agent.f).flatten)
                 (npTile L agents.length))))
        (npMatMul (npKron (npEye agents.length) Kp) (agents.map Agent.f).flatten))
      agents.length 2
      = .ok (specCentralizedCmd K Kp H agents (matFlatten L)) := by
  set n := agents.length with hn_def
  have hlfl : (matFlatten L).length = 4 := matFlatten_length_of_col hL
  -- block lists
  set eb : List (List R) := agents.map (fun a => specErr a (matFlatten L)) with heb_def
  set fb : List (List R) := agents.map (fun a => matFlatten a.f) with hfb_def
  have hebLen : eb.length = n := by rw [heb_def, List.length_map]
  have hfbLen : fb.length = n := by rw [hfb_def, List.length_map]
  have hebBlocks : ∀ v ∈ eb, v.length = 4 := by
    intro v hv
    rw [heb_def, List.mem_map] at hv
    obtain ⟨a, ha, rfl⟩ := hv
    exact specErr_length (hAg a ha) hlfl
  have hfbBlocks : ∀ v ∈ fb, v.length = 4 := by
    intro v hv
    rw [hfb_def, List.mem_map] at hv
    obtain ⟨a, ha, rfl⟩ := hv
    exact matFlatten_length_of_col (hAg a ha).2
  -- shapes of the stacked columns
  have hXcols : ∀ m ∈ agents.map Agent.state, HasShape m 4 1 := by
    intro m hm
    rw [List.mem_map] at hm
    obtain ⟨a, ha, rfl⟩ := hm
    exact (hAg a ha).1
  have hFcols : ∀ m ∈ agents.map Agent.f, HasShape m 4 1 := by
    intro m hm
    rw [List.mem_map] at hm
    obtain ⟨a, ha, rfl⟩ := hm
    exact (hAg a ha).2
  have hXsh : HasShape (agents.map Agent.state).flatten (n * 4) 1 := by
    have := hasShape_flatten_cols hXcols
    rwa [List.length_map] at this
  have hFsh : HasShape (agents.map Agent.f).flatten (n * 4) 1 := by
    have := hasShape_flatten_cols hFcols
    rwa [List.length_map] at this
  have hXLsh : HasShape (npTile L n) (n * 4) 1 := by
    unfold npTile
    have : HasShape (List.replicate n L).flatten ((List.replicate n L).length * 4) 1 :=
      hasShape_flatten_cols (fun m hm => by rw [List.eq_of_mem_replicate hm]; exact hL)
    rwa [List.length_replicate] at this
  have hEsh : HasShape (ewSub (ewSub (agents.map Agent.state).flatten
      (agents.map Agent.f).flatten) (npTile L n)) (n * 4) 1 :=
    hasShape_ewSub (hasShape_ewSub hXsh hFsh) hXLsh
  have hTileFlat : matFlatten (npTile L n) = (List.replicate n (matFlatten L)).flatten := by
    unfold npTile
    rw [matFlatten_flatten, List.map_replicate]
  have hstate4 : ∀ (i : Nat) (h : i < agents.length), (matFlatten agents[i].state).length = 4 :=
    fun i h => matFlatten_length_of_col (hAg agents[i] (agents.getElem_mem h)).1
  have hf4 : ∀ (i : Nat) (h : i < agents.length), (matFlatten agents[i].f).length = 4 :=
    fun i h => matFlatten_length_of_col (hAg agents[i] (agents.getElem_mem h)).2
  have heflat : matFlatten (ewSub (ewSub (agents.map Agent.state).flatten
      (agents.map Agent.f).flatten) (npTile L n)) = eb.flatten := by
    rw [matFlatten_ewSub_cols (hasShape_ewSub hXsh hFsh) hXLsh,
        matFlatten_ewSub_cols hXsh hFsh,
        matFlatten_flatten (agents.map Agent.state), matFlatten_flatten (agents.map Agent.f),
        List.map_map, List.map_map, hTileFlat]
    rw [zipWith_flatten_flatten (· - ·) _ _ (by simp)
      (by
        intro i hx hy
        simp only [List.length_map] at hx hy
        simp only [List.getElem_map, Function.comp_apply]
        rw [hstate4 i hx, hf4 i hy])]
    rw [zipWith_map_map]
    rw [zipWith_flatten_flatten (· - ·) _ _ (by simp)
      (by
        intro i hx hy
        simp only [List.length_map] at hx
        simp only [List.getElem_map, List.getElem_replicate, Function.comp_apply]
        rw [List.length_zipWith, hstate4 i hx, hf4 i hx, hlfl]
        simp)]
    rw [zipWith_map_replicate _ _ _ n (by simp)]
    rw [List.map_map, heb_def]
    rfl
  have hfflat : matFlatten (agents.map Agent.f).flatten = fb.flatten := by
    rw [matFlatten_flatten, List.map_map, hfb_def]
    rfl
  have hKR : HasShape (npKron H K) (n * 2) (n * 4) := hasShape_npKron hH hK
  have hKI : HasShape (npKron (npEye n) Kp) (n * 2) (n * 4) :=
    hasShape_npKron (hasShape_npEye n) hKp
  have hpos : 0 < n * 4 := by omega
  rw [matMul_col hEsh hpos]
  simp only [heflat]
  rw [matMul_col hFsh hpos]
  simp only [hfflat]
  have hneg : negMat ((npKron H K).map (fun row => [dotL row eb.flatten]))
      = (npKron H K).map (fun row => [-(dotL row eb.flatten)]) := by
    unfold negMat
    rw [List.map_map]
    rfl
  rw [hneg]
  have hU1sh : HasShape ((npKron H K).map (fun row => [-(dotL row eb.flatten)])) (n * 2) 1 := by
    constructor
    · rw [List.length_map, hKR.1]
    · intro row hrow
      rw [List.mem_map] at hrow
      obtain ⟨r, _, rfl⟩ := hrow
      rfl
  have hU2sh : HasShape ((npKron (npEye n) Kp).map (fun row => [dotL row fb.flatten]))
      (n * 2) 1 := by
    constructor
    · rw [List.length_map, hKI.1]
    · intro row hrow
      rw [List.mem_map] at hrow
      obtain ⟨r, _, rfl⟩ := hrow
      rfl
  have hUflat : matFlatten (ewAdd
        ((npKron H K).map (fun row => [-(dotL row eb.flatten)]))
        ((npKron (npEye n) Kp).map (fun row => [dotL row fb.flatten])))
      = List.zipWith (· + ·)
          ((npKron H K).map (fun row => -(dotL row eb.flatten)))
          ((npKron (npEye n) Kp).map (fun row => dotL row fb.flatten)) := by
    rw [matFlatten_ewAdd_cols hU1sh hU2sh]
    unfold matFlatten
    rw [flatten_map_singleton, flatten_map_singleton]
  have hUlen : (matFlatten (ewAdd
        ((npKron H K).map (fun row => [-(dotL row eb.flatten)]))
        ((npKron (npEye n) Kp).map (fun row => [dotL row fb.flatten])))).length = n * 2 := by
    rw [hUflat, List.length_zipWith, List.length_map, List.length_map, hKR.1, hKI.1]
    simp
  rw [npReshape_ok hUlen]
  congr 1
  unfold specCentralizedCmd
  apply List.map_congr_left
  intro i hi
  rw [List.mem_range] at hi
  apply List.map_congr_left
  intro k hk
  rw [List.mem_range] at hk
  simp only [hUflat]
  -- index bookkeeping
  have hzlen : (List.zipWith (· + ·)
      ((npKron H K).map (fun row => -(dotL row eb.flatten)))
      ((npKron (npEye n) Kp).map (fun row => dotL row fb.flatten))).length = n * 2 := by
    rw [List.length_zipWith, List.length_map, List.length_map, hKR.1, hKI.1]
    simp
  have hm : i * 2 + k < n * 2 := by omega
  rw [List.getD_eq_getElem _ _ (by rw [hzlen]; exact hm)]
  rw [List.getElem_zipWith]
  rw [List.getElem_map, List.getElem_map]
  have hKlen : K.length = 2 := hK.1
  have hKplen : Kp.length = 2 := hKp.1
  have hKrows := ((hasShape_index K 2 4).mp hK).2
  have hKprows := ((hasShape_index Kp 2 4).mp hKp).2
  have hHlen : H.length = n := hH.1
  have hHrows := ((hasShape_index H n n).mp hH).2
  -- the Kronecker rows
  have hkK : k < K.length := by omega
  have hkKp : k < Kp.length := by omega
  have hiH : i < H.length := by omega
  have hEyeLen : (npEye n : Mat R).length = n := (hasShape_npEye n).1
  have hiEye : i < (npEye n : Mat R).length := by omega
  have hKRbound : i * 2 + k < (npKron H K).length := by rw [hKR.1]; exact hm
  have hKIbound : i * 2 + k < (npKron (npEye n) Kp).length := by rw [hKI.1]; exact hm
  have hKRval : (npKron H K)[i * 2 + k]
      = (rowD H i).flatMap (fun a => (rowD K k).map (fun b => a * b)) := by
    unfold npKron
    rw [flatMap_getElem_uniform H _ 2 (fun hr => by rw [List.length_map, hKlen])
      i k hiH hk (by
        rw [length_flatMap_uniform _ _ 2 (fun hr => by rw [List.length_map, hKlen]), hHlen]
        exact hm) (by rw [List.length_map, hKlen]; exact hk)]
    rw [List.getElem_map, rowD_eq_getElem hiH, rowD_eq_getElem hkK]
  have hKIval : (npKron (npEye n) Kp)[i * 2 + k]
      = (rowD (npEye n : Mat R) i).flatMap
          (fun a => (rowD Kp k).map (fun b => a * b)) := by
    unfold npKron
    rw [flatMap_getElem_uniform (npEye n) _ 2 (fun hr => by rw [List.length_map, hKplen])
      i k hiEye hk (by
        rw [length_flatMap_uniform _ _ 2 (fun hr => by rw [List.length_map, hKplen]), hEyeLen]
        exact hm) (by rw [List.length_map, hKplen]; exact hk)]
    rw [List.getElem_map, rowD_eq_getElem hiEye, rowD_eq_getElem hkKp]
  rw [hKRval, hKIval]
  -- the H-part dot product
  have hKrowLen : (rowD K k).length = 4 := by
    rw [rowD_eq_getElem hkK]
    exact hKrows k hkK
  have hKprowLen : (rowD Kp k).length = 4 := by
    rw [rowD_eq_getElem hkKp]
    exact hKprows k hkKp
  have hHrowLen : (rowD H i).length = n := by
    rw [rowD_eq_getElem hiH]
    exact hHrows i hiH
  rw [dotL_flatMap_flatten _ _ _ (fun v hv => by rw [hebBlocks v hv, hKrowLen])]
  rw [zipWith_eq_range_map _ _ _ n hHrowLen hebLen 0 []]
  -- the eye-part dot product
  have heyeRow : rowD (npEye n : Mat R) i
      = (List.range n).map (fun j => if i = j then (1 : R) else 0) := by
    rw [rowD_eq_getElem hiEye]
    unfold npEye
    rw [List.getElem_map, List.getElem_range]
  rw [heyeRow]
  rw [dotL_flatMap_flatten _ _ _ (fun v hv => by rw [hfbBlocks v hv, hKprowLen])]
  rw [zipWith_eq_range_map _ _ _ n (by rw [List.length_map, List.length_range]) hfbLen 0 []]
  -- rewrite both range sums into the spec form
  have hsum1 : (List.range n).map (fun j =>
        ((rowD H i).getD j 0) * dotL (rowD K k) (eb.getD j []))
      = (List.range n).map (fun j =>
        entryD H i j * dotL (rowD K k) (specErr (agents.getD j dummyAgent) (matFlatten L))) := by
    apply List.map_congr_left
    intro j hj
    rw [List.mem_range] at hj
    have h1 : entryD H i j = (rowD H i).getD j 0 := rfl
    have h3 : eb.getD j [] = specErr (agents.getD j dummyAgent) (matFlatten L) := by
      have hja : j < agents.length := by omega
      rw [heb_def]
      rw [List.getD_eq_getElem _ _ (by rw [List.length_map]; exact hja), List.getElem_map,
        List.getD_eq_getElem _ _ hja]
    rw [← h1, h3]
  have hsum2 : (List.range n).map (fun j =>
        (((List.range n).map (fun j => if i = j then (1 : R) else 0)).getD j 0)
          * dotL (rowD Kp k) (fb.getD j []))
      = (List.range n).map (fun j =>
        if i = j then dotL (rowD Kp k) (fb.getD j []) else 0) := by
    apply List.map_congr_left
    intro j hj
    rw [List.mem_range] at hj
    have : ((List.range n).map (fun j => if i = j then (1 : R) else 0)).getD j 0
        = if i = j then (1 : R) else 0 := by
      rw [List.getD_eq_getElem _ _ (by rw [List.length_map, List.length_range]; exact hj),
        List.getElem_map, List.getElem_range]
    rw [this, ite_mul, one_mul, zero_mul]
  rw [hsum1, hsum2]
  rw [sum_range_delta n i (by omega) (fun j => dotL (rowD Kp k) (fb.getD j []))]
  have h4 : fb.getD i [] = matFlatten (agents.getD i dummyAgent).f := by
    have hia : i < agents.length := by omega
    rw [hfb_def]
    rw [List.getD_eq_getElem _ _ (by rw [List.length_map]; exact hia), List.getElem_map,
      List.getD_eq_getElem _ _ hia]
  rw [h4]



/-! ## Claim theorems -/

/-- C1: the spec's cross-consistency law — centralized row `i` equals the
distributed command for follower `i` — fails on the code: on a concrete
2-follower scenario the centralized controller returns a command matrix,
while the distributed controller raises `IndexError` (it indexes
`all_agents` with the raw 1-based neighbor id 2), so no per-agent
equality can hold. -/
theorem C1_cross_consistency_broken :
    isOkE (CentralizedFormationControl.compute_nominal ⟨fixtureK, npZeros 2 4⟩
        witAgents witTopo none) = true
    ∧ DistributedFormationControl.compute_nominal fixtureK 1 witAgents witTopo none
        = .error .indexError := by decide

/-- C2: the distributed controller never returns the claimed consensus
command: on a 3-follower path where the neighbor loop finishes without
an index error, the `topology.b_diag` attribute read (the `Topology`
class defines `D_lead`, not `b_diag`) raises `AttributeError`. -/
theorem C2_distributed_b_diag_missing :
    DistributedFormationControl.compute_nominal fixtureK 1 pathAgents pathTopo none
      = .error .attributeError := by decide

/-- C4: constructing the centralized controller from `K` alone does not
succeed: the Python default `K_prime_matrix = 0` is a 0-d array of
shape `()`, which the constructor's own `(2, 4)` shape check rejects
with `ValueError`. -/
theorem C4_default_K_prime_rejected :
    CentralizedFormationControl.make fixtureK none
      = (.error .valueError : Except PyError (CentralizedFormationControl ℤ)) := by decide

/-- C5: whenever `generate_constraints` returns no constraint, the
safety filter returns `u_nom` exactly, with no infeasibility warning,
and the result is the same for every QP solver — the solver is not
invoked. -/
theorem C5_filter_noop_without_constraints
    (solver : Mat R → List R → Mat R → List R → Option (List R))
    (generate_constraints : Nat → List (Agent R) → Option (Mat R × List R))
    (u_nom : Mat R) (agent_id : Nat) (all_agents : List (Agent R))
    (h : generate_constraints agent_id all_agents = none) :
    BaseCBF.solve_cbf_qp solver generate_constraints u_nom agent_id all_agents
      = (u_nom, 0) := by
  simp [BaseCBF.solve_cbf_qp, h]

/-- C5 witness: a pass-through call at concrete inputs, with a solver
that would return garbage if it were consulted. -/
theorem C5_filter_noop_witness :
    BaseCBF.solve_cbf_qp (fun _ _ _ _ => some [99, 99]) (fun _ _ => none)
        (colVec [(1 : ℤ), 2]) 1 witAgents
      = (colVec [(1 : ℤ), 2], 0) :=
  C5_filter_noop_without_constraints (fun _ _ _ _ => some [99, 99]) (fun _ _ => none)
    (colVec [(1 : ℤ), 2]) 1 witAgents rfl

/-- C6: when the QP solver reports infeasibility (returns no solution),
`solve_cbf_qp` returns normally — its total return type carries no
exception — with `u_nom` unmodified and one warning-level signal. -/
theorem C6_infeasible_fallback
    (solver : Mat R → List R → Mat R → List R → Option (List R))
    (generate_constraints : Nat → List (Agent R) → Option (Mat R × List R))
    (u_nom : Mat R) (agent_id : Nat) (all_agents : List (Agent R))
    (G : Mat R) (h_vec : List R)
    (hg : generate_constraints agent_id all_agents = some (G, h_vec))
    (hs : solver (npEye 2) ((matFlatten u_nom).map (fun x => -x)) G h_vec = none) :
    BaseCBF.solve_cbf_qp solver generate_constraints u_nom agent_id all_agents
      = (u_nom, 1) := by
  simp [BaseCBF.solve_cbf_qp, hg, hs]

/-- C6 witness: a mutually contradictory constraint pair at concrete
inputs, with a solver that reports infeasibility. -/
theorem C6_infeasible_fallback_witness :
    BaseCBF.solve_cbf_qp (fun _ _ _ _ => none)
        (fun _ _ => some ([[1, 0], [-1, 0]], [-1, -1]))
        (colVec [(1 : ℤ), 2]) 1 witAgents
      = (colVec [(1 : ℤ), 2], 1) :=
  C6_infeasible_fallback (fun _ _ _ _ => none)
    (fun _ _ => some ([[1, 0], [-1, 0]], [-1, -1]))
    (colVec [(1 : ℤ), 2]) 1 witAgents [[1, 0], [-1, 0]] [-1, -1] rfl rfl

/-- C7 counterexample: constructing `Topology(2, ...)` with a 3-by-3
adjacency matrix and a length-3 leader-access vector does not fail at
all — no ShapeMismatch-class error is raised and both Laplacians are
computed at the inputs' own size. -/
theorem C7_shape_mismatch_accepted :
    isOkE (Topology.make 2 (some pathAdj3) (some pathLa3)) = true := by decide

/-- C7 (amended): Topology construction performs no shape validation:
for every square adjacency matrix with a leader-access vector of
matching length, construction succeeds whatever `num_agents` is, and
the mismatched input is silently stored in the topology object. -/
theorem C7_no_shape_check (n m : Nat) (A : Mat R) (la : List R)
    (hA : HasShape A m m) (hla : la.length = m) :
    ∃ t : Topology R, Topology.make n (some A) (some la) = .ok t ∧
      t.n = n ∧ t.adj_matrix = A :=
  ⟨_, make_ok_of_shapes hA hla, rfl, rfl⟩

/-- C7 witness: the mismatched 3-by-3 input against `num_agents = 2`. -/
theorem C7_no_shape_check_witness :
    HasShape pathAdj3 3 3 ∧ pathLa3.length = 3 ∧
      (∃ t : Topology ℤ, Topology.make 2 (some pathAdj3) (some pathLa3) = .ok t ∧
        t.n = 2 ∧ t.adj_matrix = pathAdj3) :=
  ⟨by decide, by decide, C7_no_shape_check 2 3 pathAdj3 pathLa3 (by decide) (by decide)⟩

/-- C8: for a topology built from an `n`-by-`n` adjacency matrix and a
length-`n` leader-access vector, and a 1-based `agent_id` in `{1..n}`,
`get_neighbors` returns exactly the 1-based ids `j` with
`adj_matrix[i-1, j-1] > 0`, and `sees_leader` decides
`D_lead[i-1, i-1] > 0`. -/
theorem C8_neighbors_sees_leader (n : Nat) (A : Mat R) (la : List R) (t : Topology R)
    (i : Nat) (hA : HasShape A n n) (hla : la.length = n)
    (hmk : Topology.make n (some A) (some la) = .ok t)
    (hi1 : 1 ≤ i) (hin : i ≤ n) :
    (∃ l, t.get_neighbors i = .ok l ∧
      ∀ j, j ∈ l ↔ 1 ≤ j ∧ j ≤ n ∧ 0 < entryD t.adj_matrix (i - 1) (j - 1))
    ∧ t.sees_leader i = .ok (decide (0 < entryD t.D_lead (i - 1) (i - 1))) := by
  rw [make_ok_of_shapes hA hla] at hmk
  cases hmk
  have hALen : A.length = n := hA.1
  have hArows : ∀ (k : Nat) (h : k < A.length), A[k].length = n :=
    ((hasShape_index A n n).mp hA).2
  have hiA : i - 1 < A.length := by omega
  constructor
  · unfold Topology.get_neighbors
    rw [dif_pos hiA]
    refine ⟨_, rfl, fun j => ?_⟩
    simp only [List.mem_filterMap, List.mem_range]
    constructor
    · rintro ⟨j', hj', hsome⟩
      by_cases hpos : 0 < A[i-1].getD j' 0
      · rw [if_pos hpos] at hsome
        cases hsome
        have hj'n : j' < n := by rw [hArows _ hiA] at hj'; exact hj'
        refine ⟨by omega, by omega, ?_⟩
        unfold entryD
        rw [List.getD_eq_getElem _ _ hiA]
        simpa using hpos
      · rw [if_neg hpos] at hsome
        cases hsome
    · rintro ⟨hj1, hjn, hpos⟩
      refine ⟨j - 1, ?_, ?_⟩
      · rw [hArows _ hiA]; omega
      · unfold entryD at hpos
        rw [List.getD_eq_getElem _ _ hiA] at hpos
        rw [if_pos hpos]
        congr 1
        omega
  · have hdl : HasShape (npDiag la) n n := by
      have := hasShape_npDiag la
      rwa [hla] at this
    have hiD : i - 1 < (npDiag la).length := by rw [hdl.1]; omega
    have hjD : i - 1 < (npDiag la)[i-1].length := by
      rw [((hasShape_index _ n n).mp hdl).2 _ hiD]; omega
    unfold Topology.sees_leader
    rw [matEntry_ok _ _ _ hiD hjD]
    show Except.ok _ = _
    congr 2
    unfold entryD
    rw [List.getD_eq_getElem _ _ hiD, List.getD_eq_getElem _ _ hjD]

/-- C8 witness: the 6-node cycle fixture — neighbors(1) = {2, 6},
neighbors(3) = {2, 4}, neighbors(6) = {1, 5}; sees_leader is true for
followers 1 and 3 and false for follower 2 — plus the theorem applied
to follower 1 of the fixture. -/
theorem C8_neighbors_sees_leader_witness :
    fixtureTopo.get_neighbors 1 = .ok [2, 6] ∧
    fixtureTopo.get_neighbors 3 = .ok [2, 4] ∧
    fixtureTopo.get_neighbors 6 = .ok [1, 5] ∧
    fixtureTopo.sees_leader 1 = .ok true ∧
    fixtureTopo.sees_leader 2 = .ok false ∧
    fixtureTopo.sees_leader 3 = .ok true ∧
    fixtureTopo.sees_leader 1 = .ok (decide ((0 : ℤ) < entryD fixtureTopo.D_lead 0 0)) :=
  ⟨by decide, by decide, by decide, by decide, by decide, by decide,
    (C8_neighbors_sees_leader 6 fixtureA fixtureLa fixtureTopo 1 (by decide) (by decide)
      (by decide) (by decide) (by decide)).2⟩

/-- C9: for a topology built from an `n`-by-`n` adjacency matrix `A`
and a length-`n` leader-access vector, the precomputed Laplacian is
`diag(row-sums of A) - A` entrywise, each of its rows sums to zero, the
precomputed augmented Laplacian is the Laplacian plus the diagonal
leader-access matrix entrywise, and the accessor returns the stored
matrix unchanged. -/
theorem C9_laplacian_invariants (n : Nat) (A : Mat R) (la : List R) (t : Topology R)
    (hA : HasShape A n n) (hla : la.length = n)
    (hmk : Topology.make n (some A) (some la) = .ok t) :
    (∀ i j, i < n → j < n →
        entryD t.laplacian_matrix i j
          = (if i = j then (rowD A i).sum else 0) - entryD A i j)
    ∧ (∀ i, i < n → (rowD t.laplacian_matrix i).sum = 0)
    ∧ (∀ i j, i < n → j < n →
        entryD t.augmented_laplacian i j
          = entryD t.laplacian_matrix i j + entryD t.D_lead i j)
    ∧ t.D_lead = npDiag la
    ∧ t.get_augmented_laplacian = t.augmented_laplacian := by
  rw [make_ok_of_shapes hA hla] at hmk
  cases hmk
  have hrs : (npRowSums A).length = n := by rw [length_npRowSums, hA.1]
  have hd : HasShape (npDiag (npRowSums A)) n n := by
    have := hasShape_npDiag (npRowSums A)
    rwa [hrs] at this
  have hlap : HasShape (ewSub (npDiag (npRowSums A)) A) n n := hasShape_ewSub hd hA
  have hdl : HasShape (npDiag la) n n := by
    have := hasShape_npDiag la
    rwa [hla] at this
  have hALen : A.length = n := hA.1
  have hArows : ∀ (i : Nat) (h : i < A.length), A[i].length = n :=
    ((hasShape_index A n n).mp hA).2
  have hdiagEntry : ∀ i j, i < n → j < n →
      entryD (npDiag (npRowSums A)) i j = if i = j then (rowD A i).sum else 0 := by
    intro i j hi hj
    rw [entryD_npDiag (npRowSums A) i j (by omega) (by omega)]
    by_cases hij : i = j
    · subst hij
      rw [if_pos rfl, if_pos rfl]
      have hiA : i < A.length := by omega
      have hiR : i < (npRowSums A).length := by omega
      rw [List.getD_eq_getElem _ _ hiR]
      unfold npRowSums rowD
      rw [List.getElem_map, List.getD_eq_getElem _ _ hiA]
    · rw [if_neg hij, if_neg hij]
  refine ⟨?_, ?_, ?_, rfl, rfl⟩
  · intro i j hi hj
    rw [entryD_ewSub hd hA i j hi hj, hdiagEntry i j hi hj]
  · intro i hi
    unfold rowD
    have hiz : i < (ewSub (npDiag (npRowSums A)) A).length := by
      rw [hlap.1]; exact hi
    rw [List.getD_eq_getElem _ _ hiz]
    unfold ewSub
    rw [List.getElem_zipWith]
    have hiD : i < (npDiag (npRowSums A)).length := by rw [hd.1]; exact hi
    have hiA : i < A.length := by omega
    rw [sum_zipWith_sub (by
      rw [((hasShape_index _ n n).mp hd).2 i hiD, hArows i hiA])]
    rw [getElem_npDiag (npRowSums A) i (by omega) hiD]
    rw [sum_range_delta _ i (by omega) (fun j => (npRowSums A).getD j 0)]
    have hiR : i < (npRowSums A).length := by omega
    rw [List.getD_eq_getElem _ _ hiR]
    unfold npRowSums
    rw [List.getElem_map]
    ring
  · intro i j hi hj
    rw [entryD_ewAdd hlap hdl i j hi hj]

/-- C9 witness: the 6-node cycle fixture — row 0 of its Laplacian sums
to zero and the accessor returns the stored augmented Laplacian —
through the theorem applied to the fixture. -/
theorem C9_laplacian_invariants_witness :
    (rowD fixtureTopo.laplacian_matrix 0).sum = 0 ∧
    fixtureTopo.get_augmented_laplacian = fixtureTopo.augmented_laplacian := by
  have h := C9_laplacian_invariants 6 fixtureA fixtureLa fixtureTopo
    (by decide) (by decide) (by decide)
  exact ⟨h.2.1 0 (by decide), h.2.2.2.2⟩

/-- C10: `compute_safe_control` forwards no leader state to the wrapped
distributed nominal controller, so for every scenario the filtered
nominal command is the one computed with the zero-vector leader
default: the call equals the same pipeline with the zero leader state
passed explicitly. -/
theorem C10_zero_leader_default (K : Mat R)
    (solver : Mat R → List R → Mat R → List R → Option (List R))
    (generate_constraints : Nat → List (Agent R) → Option (Mat R × List R))
    (agent_id : Nat) (all_agents : List (Agent R)) (topology : Topology R) :
    BaseCBF.compute_safe_control solver generate_constraints
        (DistributedFormationControl.compute_nominal K) agent_id all_agents topology
      = (DistributedFormationControl.compute_nominal K agent_id all_agents topology
            (some (npZeros 4 1))).map
          (fun u_nom =>
            BaseCBF.solve_cbf_qp solver generate_constraints u_nom agent_id all_agents) := by
  rfl

/-- C3: under the data-model preconditions (a positive number of
followers, `(2, 4)` gains, an `n`-by-`n` augmented Laplacian, column
agent states and offsets, a 4-element leader state when given), the
centralized `compute_nominal` returns the `n`-row 2-column reshape of
`-(H ⊗ K)·(X_all - F_all - X_L_all) + (I_n ⊗ K_prime)·F_all`, whose
row `i` is the spec's command for follower `i`, with the leader state
defaulting to the zero 4-vector when omitted. -/
theorem C3_centralized_formula (c : CentralizedFormationControl R)
    (all_agents : List (Agent R)) (topology : Topology R) (leader_state : Option (Mat R))
    (hn : 0 < all_agents.length)
    (hK : HasShape c.K 2 4) (hKp : HasShape c.K_prime 2 4)
    (hH : HasShape topology.augmented_laplacian all_agents.length all_agents.length)
    (hAg : ∀ a ∈ all_agents, a.WF)
    (hls : ∀ ls, leader_state = some ls → (matFlatten ls).length = 4) :
    c.compute_nominal all_agents topology leader_state
      = .ok (specCentralizedCmd c.K c.K_prime topology.augmented_laplacian
          all_agents (specLeader leader_state)) := by
  have hXne : all_agents.map Agent.state ≠ [] := by
    simp only [ne_eq, List.map_eq_nil_iff]
    intro hcon
    rw [hcon] at hn
    simp at hn
  have hFne : all_agents.map Agent.f ≠ [] := by
    simp only [ne_eq, List.map_eq_nil_iff]
    intro hcon
    rw [hcon] at hn
    simp at hn
  have hXcols : ∀ m ∈ all_agents.map Agent.state, HasShape m 4 1 := by
    intro m hm
    rw [List.mem_map] at hm
    obtain ⟨a, ha, rfl⟩ := hm
    exact (hAg a ha).1
  have hFcols : ∀ m ∈ all_agents.map Agent.f, HasShape m 4 1 := by
    intro m hm
    rw [List.mem_map] at hm
    obtain ⟨a, ha, rfl⟩ := hm
    exact (hAg a ha).2
  have hXsh : HasShape (all_agents.map Agent.state).flatten (4 * all_agents.length) 1 := by
    have := hasShape_flatten_cols hXcols
    rwa [List.length_map, Nat.mul_comm] at this
  have hFsh : HasShape (all_agents.map Agent.f).flatten (4 * all_agents.length) 1 := by
    have := hasShape_flatten_cols hFcols
    rwa [List.length_map, Nat.mul_comm] at this
  have hsc : shapeCheck topology.augmented_laplacian all_agents.length all_agents.length
      = true := (shapeCheck_iff _ _ _).mpr hH
  have hscX : shapeCheck (all_agents.map Agent.state).flatten (4 * all_agents.length) 1
      = true := (shapeCheck_iff _ _ _).mpr hXsh
  have hscF : shapeCheck (all_agents.map Agent.f).flatten (4 * all_agents.length) 1
      = true := (shapeCheck_iff _ _ _).mpr hFsh
  unfold CentralizedFormationControl.compute_nominal Topology.get_augmented_laplacian
  rw [if_neg (by rw [hsc]; simp)]
  rw [npVstack_ok hXne, exceptBind_ok, npVstack_ok hFne, exceptBind_ok]
  rw [if_neg (by rw [hscX]; simp)]
  rw [if_neg (by rw [hscF]; simp)]
  cases leader_state with
  | none =>
    exact centralized_core c.K c.K_prime topology.augmented_laplacian all_agents
      (npZeros 4 1) hn hK hKp hH hAg (hasShape_npZeros 4 1)
  | some ls =>
    have h4 := hls ls rfl
    simp only [exceptPure_bind]
    rw [npReshape_col h4, exceptBind_ok]
    have hcv : HasShape (colVec (matFlatten ls)) 4 1 := by
      have := hasShape_colVec (matFlatten ls)
      rwa [h4] at this
    have hcore := centralized_core c.K c.K_prime topology.augmented_laplacian all_agents
      (colVec (matFlatten ls)) hn hK hKp hH hAg hcv
    rw [matFlatten_colVec] at hcore
    exact hcore


/-- C3 witness: the concrete 2-follower scenario, leader omitted. -/
theorem C3_centralized_formula_witness :
    CentralizedFormationControl.compute_nominal witCtrl witAgents witTopo none
      = .ok (specCentralizedCmd witCtrl.K witCtrl.K_prime witTopo.augmented_laplacian
          witAgents (specLeader none)) :=
  C3_centralized_formula witCtrl witAgents witTopo none (by decide) (by decide)
    (by decide) (by decide) (by decide) (fun ls h => nomatch h)
